import Mathlib

/-!
Shallow embedding of the write-batch subsystem of `db/write_batch.cc`
(node-rocksdb vendored RocksDB): the batch byte format, the builder
operations (`Put`, `Delete`, `Merge`, `PutLogData`, `Clear`, `Append`,
`SetContents`), the replay dispatcher (`WriteBatch::Iterate`) and the
mutation-policy applier (`MemTableInserter`).

Bytes are modelled as `List Nat` (each element a byte value); machine
integers are `Nat` with explicit `% 2^w` where the code's fixed-width
arithmetic can overflow.
-/

namespace WriteBatchSpec

/-- Modelled from the spec: the codec primitives (fixed-width and
variable-length integer encode/decode, length-prefixed byte strings) live
in `util/coding.{h,cc}`, which is not under `src/`; the spec describes them
as "fixed-width and variable-length integer encode/decode, length-prefixed
byte-string encode/decode" with "unsigned variable-length integer length,
then raw bytes".  This is the standard little-endian base-128 varint
encoder for 32-bit values (at most five bytes), written with the loop
unrolled. -/
def encVarint32 (n : Nat) : List Nat :=
  if n < 2^7 then [n]
  else if n < 2^14 then [n % 128 + 128, n / 2^7]
  else if n < 2^21 then [n % 128 + 128, n / 2^7 % 128 + 128, n / 2^14]
  else if n < 2^28 then
    [n % 128 + 128, n / 2^7 % 128 + 128, n / 2^14 % 128 + 128, n / 2^21]
  else
    [n % 128 + 128, n / 2^7 % 128 + 128, n / 2^14 % 128 + 128,
     n / 2^21 % 128 + 128, n / 2^28]

/-- Modelled from the spec: varint32 decoder.  `fuel` bounds the number of
bytes consumed (five for a 32-bit value, mirroring the `shift <= 28` bound
of the unrolled reference decoder); a continuation byte has its high bit
set. -/
def decVarint32 : Nat → Nat → Nat → List Nat → Option (Nat × List Nat)
  | _, _, _, [] => none
  | 0, _, _, _ :: _ => none
  | fuel + 1, shift, acc, b :: rest =>
    if b < 128 then some (acc + b * 2^shift, rest)
    else decVarint32 fuel (shift + 7) (acc + (b - 128) * 2^shift) rest

/-- `GetVarint32` entry point: at most five bytes. -/
def getVarint32 (input : List Nat) : Option (Nat × List Nat) :=
  decVarint32 5 0 0 input

/-- Modelled from the spec: 4-byte little-endian fixed-width encoder. -/
def encFixed32 (n : Nat) : List Nat :=
  [n % 256, n / 2^8 % 256, n / 2^16 % 256, n / 2^24 % 256]

/-- Modelled from the spec: 8-byte little-endian fixed-width encoder. -/
def encFixed64 (n : Nat) : List Nat :=
  [n % 256, n / 2^8 % 256, n / 2^16 % 256, n / 2^24 % 256,
   n / 2^32 % 256, n / 2^40 % 256, n / 2^48 % 256, n / 2^56 % 256]

/-- Modelled from the spec: 4-byte little-endian decoder (reads the first
four bytes of the list). -/
def decFixed32 (l : List Nat) : Nat :=
  l.getD 0 0 + 2^8 * l.getD 1 0 + 2^16 * l.getD 2 0 + 2^24 * l.getD 3 0

/-- Modelled from the spec: 8-byte little-endian decoder. -/
def decFixed64 (l : List Nat) : Nat :=
  l.getD 0 0 + 2^8 * l.getD 1 0 + 2^16 * l.getD 2 0 + 2^24 * l.getD 3 0 +
  2^32 * l.getD 4 0 + 2^40 * l.getD 5 0 + 2^48 * l.getD 6 0 +
  2^56 * l.getD 7 0

/-- Modelled from the spec: `GetLengthPrefixedSlice` — decode a varint32
length, require at least that many bytes to remain, return the payload and
the rest. -/
def getLengthPrefixedSlice (input : List Nat) :
    Option (List Nat × List Nat) :=
  match getVarint32 input with
  | none => none
  | some (len, rest) =>
    if len ≤ rest.length then some (rest.take len, rest.drop len) else none

/-- Modelled from the spec: `PutLengthPrefixedSlice` — the length is passed
through a 32-bit parameter, hence the `% 2^32`. -/
def putLengthPrefixedSlice (s : List Nat) : List Nat :=
  encVarint32 (s.length % 2^32) ++ s

/-- Modelled from the spec: `PutLengthPrefixedSliceParts` — the value is
"assembled from multiple fragments without requiring prior concatenation":
one varint32 of the total byte count, then the fragments' bytes in order. -/
def putLengthPrefixedSliceParts (parts : List (List Nat)) : List Nat :=
  encVarint32 ((parts.map List.length).sum % 2^32) ++ parts.flatten

/-! ## Record tags

Modelled from the spec: the numeric tag values live in `db/dbformat.h`,
which is not under `src/`; the spec only requires "distinct reserved
values for Value/Deletion/Merge/LogData".  The upstream values are used. -/

def kTypeDeletion : Nat := 0
def kTypeValue : Nat := 1
def kTypeMerge : Nat := 2
def kTypeLogData : Nat := 3

/-! ## WriteBatch container (`db/write_batch.cc`) -/

/-- `kHeader`: 8-byte sequence number followed by a 4-byte count. -/
def kHeader : Nat := 12

/-- `WriteBatch::Clear` (also the state of a freshly constructed batch):
`rep_` resized to twelve zero bytes. -/
def wbClear : List Nat := List.replicate kHeader 0

/-- `WriteBatchInternal::Count`: `DecodeFixed32(rep_.data() + 8)`. -/
def wbCount (rep : List Nat) : Nat := decFixed32 (rep.drop 8)

/-- `WriteBatchInternal::SetCount`: `EncodeFixed32(&rep_[8], n)` overwrites
bytes 8..11 in place. -/
def wbSetCount (rep : List Nat) (n : Nat) : List Nat :=
  rep.take 8 ++ encFixed32 n ++ rep.drop 12

/-- `WriteBatchInternal::Sequence`: `DecodeFixed64(rep_.data())`. -/
def wbSequence (rep : List Nat) : Nat := decFixed64 rep

/-- `WriteBatchInternal::SetSequence`: `EncodeFixed64(&rep_[0], seq)`. -/
def wbSetSequence (rep : List Nat) (seq : Nat) : List Nat :=
  encFixed64 seq ++ rep.drop 8

/-- `WriteBatch::Put(Slice, Slice)`. -/
def wbPut (rep : List Nat) (key value : List Nat) : List Nat :=
  wbSetCount rep (wbCount rep + 1) ++ [kTypeValue] ++
    putLengthPrefixedSlice key ++ putLengthPrefixedSlice value

/-- `WriteBatch::Put(SliceParts, SliceParts)`. -/
def wbPutParts (rep : List Nat) (keyParts valueParts : List (List Nat)) :
    List Nat :=
  wbSetCount rep (wbCount rep + 1) ++ [kTypeValue] ++
    putLengthPrefixedSliceParts keyParts ++
    putLengthPrefixedSliceParts valueParts

/-- `WriteBatch::Delete(Slice)`. -/
def wbDelete (rep : List Nat) (key : List Nat) : List Nat :=
  wbSetCount rep (wbCount rep + 1) ++ [kTypeDeletion] ++
    putLengthPrefixedSlice key

/-- `WriteBatch::Merge(Slice, Slice)`. -/
def wbMerge (rep : List Nat) (key value : List Nat) : List Nat :=
  wbSetCount rep (wbCount rep + 1) ++ [kTypeMerge] ++
    putLengthPrefixedSlice key ++ putLengthPrefixedSlice value

/-- `WriteBatch::PutLogData(Slice)`: no count update. -/
def wbPutLogData (rep : List Nat) (blob : List Nat) : List Nat :=
  rep ++ [kTypeLogData] ++ putLengthPrefixedSlice blob

/-- `WriteBatchInternal::SetContents`: adopt the bytes wholesale (the
caller asserts `contents.size() >= kHeader`). -/
def wbSetContents (contents : List Nat) : List Nat := contents

/-- `WriteBatchInternal::Append`: sum the counts into `dst`'s count field,
then append `src`'s bytes past its 12-byte header. -/
def wbAppend (dst src : List Nat) : List Nat :=
  wbSetCount dst (wbCount dst + wbCount src) ++ src.drop kHeader

/-! ## Dispatcher (`WriteBatch::Iterate`) -/

/-- The status values `Iterate` can return. -/
inductive Status where
  | ok : Status
  | corruption : String → Status
deriving DecidableEq

deriving instance DecidableEq for Except

/-- A replayed record, as delivered to a handler (also used as the builder
operation alphabet, since the two coincide). -/
inductive Op where
  | put : List Nat → List Nat → Op
  | del : List Nat → Op
  | merge : List Nat → List Nat → Op
  | logData : List Nat → Op
deriving DecidableEq

/-- `WriteBatch::Handler`: the capability set, over an explicit handler
state `σ`.  Each capability may raise (`Except.error`), modelling a C++
exception thrown by the virtual method and propagating out of `Iterate`
(the base class's `Merge` throws `std::runtime_error`). -/
structure Handler (σ : Type) where
  put : σ → List Nat → List Nat → Except String σ
  del : σ → List Nat → Except String σ
  merge : σ → List Nat → List Nat → Except String σ
  logData : σ → List Nat → Except String σ
  contF : σ → Bool

/-- A handler built from `WriteBatch::Handler`'s defaults: the subclass
supplies `Put` and `Delete` (pure virtual in the base), and inherits
`Merge` (throws `std::runtime_error("Handler::Merge not implemented!")`),
`LogData` (ignore) and `Continue` (always true). -/
def defaultHandler {σ : Type} (putF : σ → List Nat → List Nat → Except String σ)
    (delF : σ → List Nat → Except String σ) : Handler σ where
  put := putF
  del := delF
  merge := fun _ _ _ => Except.error "Handler::Merge not implemented!"
  logData := fun s _ => Except.ok s
  contF := fun _ => true

/-- A recording handler: the state is the list of operations seen so far,
every capability overridden, `Continue` always true. -/
def recorder : Handler (List Op) where
  put := fun s k v => Except.ok (s ++ [Op.put k v])
  del := fun s k => Except.ok (s ++ [Op.del k])
  merge := fun s k v => Except.ok (s ++ [Op.merge k v])
  logData := fun s b => Except.ok (s ++ [Op.logData b])
  contF := fun _ => true

/-- How the replay loop ended. -/
inductive LoopOutcome where
  | clean : LoopOutcome
  | corrupt : String → LoopOutcome
  | exn : String → LoopOutcome
  | nofuel : LoopOutcome
deriving DecidableEq

/-- Result of the replay loop: final handler state, the found-counter, the
trace of handler calls made, the batch bytes (threaded through untouched —
the loop only ever advances a read cursor over them), and the outcome. -/
structure LoopOut (σ : Type) where
  state : σ
  found : Nat
  trace : List Op
  buf : List Nat
  outcome : LoopOutcome
deriving DecidableEq

/-- The body of `WriteBatch::Iterate`'s `while` loop.  `fuel` is a
structural-recursion budget; `iterate` supplies `input.length`, which
always suffices since every iteration consumes at least the tag byte
(`loop_outcome_not_nofuel`).  Per iteration: stop cleanly when the input
is exhausted or `Continue()` is false; otherwise read one tag byte and
dispatch, failing with a record-kind-specific corruption message on a
malformed length-prefixed payload and with "unknown WriteBatch tag" on an
unassigned tag. -/
def iterLoop {σ : Type} (h : Handler σ) :
    Nat → List Nat → List Nat → σ → Nat → List Op → LoopOut σ
  | _, buf, [], s, found, tr => ⟨s, found, tr, buf, LoopOutcome.clean⟩
  | 0, buf, _ :: _, s, found, tr => ⟨s, found, tr, buf, LoopOutcome.nofuel⟩
  | fuel + 1, buf, tag :: rest, s, found, tr =>
    if h.contF s = false then ⟨s, found, tr, buf, LoopOutcome.clean⟩
    else if tag = kTypeValue then
      match getLengthPrefixedSlice rest with
      | none => ⟨s, found, tr, buf, LoopOutcome.corrupt "bad WriteBatch Put"⟩
      | some (key, r1) =>
        match getLengthPrefixedSlice r1 with
        | none => ⟨s, found, tr, buf, LoopOutcome.corrupt "bad WriteBatch Put"⟩
        | some (value, r2) =>
          match h.put s key value with
          | Except.error e => ⟨s, found, tr, buf, LoopOutcome.exn e⟩
          | Except.ok s' =>
            iterLoop h fuel buf r2 s' (found + 1) (tr ++ [Op.put key value])
    else if tag = kTypeDeletion then
      match getLengthPrefixedSlice rest with
      | none => ⟨s, found, tr, buf, LoopOutcome.corrupt "bad WriteBatch Delete"⟩
      | some (key, r1) =>
        match h.del s key with
        | Except.error e => ⟨s, found, tr, buf, LoopOutcome.exn e⟩
        | Except.ok s' =>
          iterLoop h fuel buf r1 s' (found + 1) (tr ++ [Op.del key])
    else if tag = kTypeMerge then
      match getLengthPrefixedSlice rest with
      | none => ⟨s, found, tr, buf, LoopOutcome.corrupt "bad WriteBatch Merge"⟩
      | some (key, r1) =>
        match getLengthPrefixedSlice r1 with
        | none => ⟨s, found, tr, buf, LoopOutcome.corrupt "bad WriteBatch Merge"⟩
        | some (value, r2) =>
          match h.merge s key value with
          | Except.error e => ⟨s, found, tr, buf, LoopOutcome.exn e⟩
          | Except.ok s' =>
            iterLoop h fuel buf r2 s' (found + 1) (tr ++ [Op.merge key value])
    else if tag = kTypeLogData then
      match getLengthPrefixedSlice rest with
      | none => ⟨s, found, tr, buf, LoopOutcome.corrupt "bad WriteBatch Blob"⟩
      | some (blob, r1) =>
        match h.logData s blob with
        | Except.error e => ⟨s, found, tr, buf, LoopOutcome.exn e⟩
        | Except.ok s' => iterLoop h fuel buf r1 s' found (tr ++ [Op.logData blob])
    else ⟨s, found, tr, buf, LoopOutcome.corrupt "unknown WriteBatch tag"⟩

/-- Result of `Iterate`: final handler state, the returned `Status` (or an
uncaught handler exception, as `Except.error`), the trace of handler calls,
and the batch bytes after the dispatch. -/
structure IterOut (σ : Type) where
  state : σ
  result : Except String Status
  trace : List Op
  buf : List Nat
deriving DecidableEq

/-- `WriteBatch::Iterate`: reject a buffer shorter than the 12-byte header
("too small"), skip the header, run the loop, and — only when the loop
ended cleanly (input exhausted or `Continue()` false) — compare the
found-counter with the declared count, failing with "wrong count" on
mismatch.  (The `nofuel` arm is unreachable for the fuel chosen here,
`loop_outcome_not_nofuel`.) -/
def iterate {σ : Type} (rep : List Nat) (h : Handler σ) (s : σ) : IterOut σ :=
  if rep.length < kHeader then
    ⟨s, Except.ok (Status.corruption "malformed WriteBatch (too small)"), [], rep⟩
  else
    match iterLoop h (rep.drop kHeader).length rep (rep.drop kHeader) s 0 [] with
    | ⟨st, found, tr, buf, LoopOutcome.clean⟩ =>
      if found ≠ wbCount rep then
        ⟨st, Except.ok (Status.corruption "WriteBatch has wrong count"), tr, buf⟩
      else ⟨st, Except.ok Status.ok, tr, buf⟩
    | ⟨st, _, tr, buf, LoopOutcome.corrupt m⟩ =>
      ⟨st, Except.ok (Status.corruption m), tr, buf⟩
    | ⟨st, _, tr, buf, LoopOutcome.exn e⟩ => ⟨st, Except.error e, tr, buf⟩
    | ⟨st, _, tr, buf, LoopOutcome.nofuel⟩ =>
      ⟨st, Except.ok (Status.corruption "out of fuel"), tr, buf⟩

/-! ## Applier (`MemTableInserter`)

The applier's collaborators — the in-memory table (`MemTable`), the full
point-read path (`DBImpl::Get`), the may-exist probe (`KeyMayExist`), the
in-place update callback and the merge operator — live outside
`db/write_batch.cc` and outside `src/`; the spec treats them as "external
collaborators".  They are abstracted as an environment of functions over
an abstract table type `τ`; the control flow of `MemTableInserter::Put`,
`Merge` and `Delete` is embedded from the source. -/

/-- Result of `options_->inplace_callback(prev, prev_size, delta, &merged)`:
mirrors `UpdateStatus` (`UPDATE_FAILED`, `UPDATED_INPLACE` with the
mutated previous buffer, `UPDATED` with the freshly computed value). -/
inductive UpdateStatus where
  | failed : UpdateStatus
  | updatedInplace : List Nat → UpdateStatus
  | updated : List Nat → UpdateStatus

/-- Statistics tick counters recorded by the applier
(`RecordTick(options_->statistics, ...)`). -/
inductive Tick where
  | numberKeysUpdated : Tick
  | numberKeysWritten : Tick
  | numberMergeFailures : Tick
  | numberFilteredDeletes : Tick
deriving DecidableEq

/-- The applier's environment: the option fields it consults and its
external collaborators, over an abstract memtable type `τ`.
`dbGet seq key` is the full point read at a snapshot pinned to `seq`
(`none` models a non-OK status, leaving the output string empty);
`updateCallback mem seq key value` models `mem_->UpdateCallback(...)`
(`some mem'` when it returns true); `keyMayExist seq key` models
`db_->KeyMayExist` at a snapshot pinned to `seq`;
`countSuccessiveMergeEntries mem key seq` models
`mem_->CountSuccessiveMergeEntries(LookupKey(key, seq))`;
`mergeOperator key existing operands` models
`merge_operator->FullMerge` (`none` on merge failure), with
`mergeOperator = none` when no merge function is configured. -/
structure MTEnv (τ : Type) where
  inplaceUpdateSupport : Bool
  inplaceCallback : Option (Option (List Nat) → List Nat → UpdateStatus)
  maxSuccessiveMerges : Nat
  mergeOperator : Option (List Nat → Option (List Nat) → List (List Nat) →
    Option (List Nat))
  dbPresent : Bool
  add : τ → Nat → Nat → List Nat → List Nat → τ
  update : τ → Nat → List Nat → List Nat → τ
  updateCallback : τ → Nat → List Nat → List Nat → Option τ
  countSuccessiveMergeEntries : τ → List Nat → Nat → Nat
  dbGet : Nat → List Nat → Option (List Nat)
  keyMayExist : Nat → List Nat → Bool

/-- The applier's mutable state: the running sequence counter
(`sequence_`, a 64-bit value), the memtable, and the ticks recorded. -/
structure MTState (τ : Type) where
  sequence : Nat
  mem : τ
  ticks : List Tick
deriving DecidableEq

/-- `MemTableInserter::Put`: default path adds a `Value` record;
in-place-update path without callback calls `Update` and ticks
`NUMBER_KEYS_UPDATED`; with a callback, try `UpdateCallback` in the table,
else point-read at a snapshot pinned to the current sequence and act on
the callback's verdict.  The sequence is always bumped at the end, "even
if the update eventually fails and does not result in memtable
add/update". -/
def mtiPut {τ : Type} (env : MTEnv τ) (st : MTState τ) (key value : List Nat) :
    MTState τ :=
  let st' :=
    if env.inplaceUpdateSupport = false then
      { st with mem := env.add st.mem st.sequence kTypeValue key value }
    else
      match env.inplaceCallback with
      | none =>
        { st with mem := env.update st.mem st.sequence key value,
                  ticks := st.ticks ++ [Tick.numberKeysUpdated] }
      | some cb =>
        match env.updateCallback st.mem st.sequence key value with
        | some mem' => { st with mem := mem' }
        | none =>
          match cb (env.dbGet st.sequence key) value with
          | UpdateStatus.updatedInplace newPrev =>
            { st with mem := env.add st.mem st.sequence kTypeValue key newPrev,
                      ticks := st.ticks ++ [Tick.numberKeysWritten] }
          | UpdateStatus.updated merged =>
            { st with mem := env.add st.mem st.sequence kTypeValue key merged,
                      ticks := st.ticks ++ [Tick.numberKeysWritten] }
          | UpdateStatus.failed => st
  { st' with sequence := (st'.sequence + 1) % 2^64 }

/-- `MemTableInserter::Merge`'s eager-resolution trigger (`perform_merge`):
a positive successive-merge threshold, a db handle, and a successive-merge
chain at the head of the key's entries at least as long as the threshold
(`num_merges >= options_->max_successive_merges`). -/
def mergeTriggers {τ : Type} (env : MTEnv τ) (st : MTState τ)
    (key : List Nat) : Bool :=
  0 < env.maxSuccessiveMerges && env.dbPresent &&
    env.maxSuccessiveMerges ≤
      env.countSuccessiveMergeEntries st.mem key st.sequence

/-- `MemTableInserter::Merge`: with a positive successive-merge threshold
and a db handle, count the consecutive pending merges at the head of the
key's chain; at or past the threshold, resolve eagerly — point-read the
base value at a snapshot pinned to the current sequence (the C++ passes
the `get_value` string, empty on a failed read, always by address) and
fold `[operand]` through `FullMerge`; on success add a plain `Value`
record, on merge failure tick `NUMBER_MERGE_FAILURES` and fall back to the
deferred `Merge` record; otherwise add the deferred `Merge` record.  The
eager path dereferences `options_->merge_operator` under
`assert(merge_operator)`: with no merge operator configured it dies
(modelled as `Except.error`).  The sequence is bumped in every surviving
branch. -/
def mtiMerge {τ : Type} (env : MTEnv τ) (st : MTState τ)
    (key value : List Nat) : Except String (MTState τ) :=
  if mergeTriggers env st key then
    let getValue := (env.dbGet st.sequence key).getD []
    match env.mergeOperator with
    | none => Except.error "assert(merge_operator) failed"
    | some fullMerge =>
      match fullMerge key (some getValue) [value] with
      | some newValue =>
        Except.ok
          { sequence := (st.sequence + 1) % 2^64,
            mem := env.add st.mem st.sequence kTypeValue key newValue,
            ticks := st.ticks }
      | none =>
        Except.ok
          { sequence := (st.sequence + 1) % 2^64,
            mem := env.add st.mem st.sequence kTypeMerge key value,
            ticks := st.ticks ++ [Tick.numberMergeFailures] }
  else
    Except.ok
      { sequence := (st.sequence + 1) % 2^64,
        mem := env.add st.mem st.sequence kTypeMerge key value,
        ticks := st.ticks }

/-- `MemTableInserter::Delete`: with delete-filtering enabled, probe
`KeyMayExist` at a snapshot pinned to the current sequence; if the key
definitely does not exist, tick `NUMBER_FILTERED_DELETES` and `return` —
note this early return skips both the tombstone add and the `sequence_++`.
Otherwise add a `Deletion` tombstone and bump the sequence. -/
def mtiDelete {τ : Type} (env : MTEnv τ) (filterDeletes : Bool)
    (st : MTState τ) (key : List Nat) : MTState τ :=
  if filterDeletes && !env.keyMayExist st.sequence key then
    { st with ticks := st.ticks ++ [Tick.numberFilteredDeletes] }
  else
    { sequence := (st.sequence + 1) % 2^64,
      mem := env.add st.mem st.sequence kTypeDeletion key [],
      ticks := st.ticks }

/-- `MemTableInserter` as a `Handler`: `Put`/`Delete`/`Merge` overridden as
above; `LogData` and `Continue` inherited from the base class defaults. -/
def memTableInserter {τ : Type} (env : MTEnv τ) (filterDeletes : Bool) :
    Handler (MTState τ) where
  put := fun st k v => Except.ok (mtiPut env st k v)
  del := fun st k => Except.ok (mtiDelete env filterDeletes st k)
  merge := fun st k v => mtiMerge env st k v
  logData := fun st _ => Except.ok st
  contF := fun _ => true

/-- `WriteBatchInternal::InsertInto`: build a `MemTableInserter` whose
running sequence starts at the batch's base sequence number, and dispatch
the batch into it. -/
def insertInto {τ : Type} (env : MTEnv τ) (filterDeletes : Bool)
    (rep : List Nat) (mem : τ) : IterOut (MTState τ) :=
  iterate rep (memTableInserter env filterDeletes)
    ⟨wbSequence rep, mem, []⟩

/-! ## Specification-side helper definitions

`Op` doubles as the builder-call alphabet; these definitions describe the
byte shapes the builder produces and are used to state structure lemmas. -/

/-- Whether an operation is an annotation (`PutLogData`) call. -/
def opIsLogData : Op → Bool
  | Op.logData _ => true
  | _ => false

/-- Whether an operation is a `Merge` call. -/
def opIsMerge : Op → Bool
  | Op.merge _ _ => true
  | _ => false

/-- All slice lengths of the operation fit in 32 bits (the length prefix is
written through a `uint32_t`). -/
def opSmall : Op → Bool
  | Op.put k v => decide (k.length < 2^32) && decide (v.length < 2^32)
  | Op.del k => decide (k.length < 2^32)
  | Op.merge k v => decide (k.length < 2^32) && decide (v.length < 2^32)
  | Op.logData b => decide (b.length < 2^32)

/-- Number of non-annotation (count-bearing) operations. -/
def nonLog : List Op → Nat
  | [] => 0
  | op :: rest => (if opIsLogData op then 0 else 1) + nonLog rest

/-- The record bytes a single builder call appends past the header. -/
def encOp : Op → List Nat
  | Op.put k v =>
    kTypeValue :: (putLengthPrefixedSlice k ++ putLengthPrefixedSlice v)
  | Op.del k => kTypeDeletion :: putLengthPrefixedSlice k
  | Op.merge k v =>
    kTypeMerge :: (putLengthPrefixedSlice k ++ putLengthPrefixedSlice v)
  | Op.logData b => kTypeLogData :: putLengthPrefixedSlice b

/-- The body bytes a sequence of builder calls appends. -/
def encOps : List Op → List Nat
  | [] => []
  | op :: rest => encOp op ++ encOps rest

/-- One builder call dispatched on the operation alphabet. -/
def applyOp (rep : List Nat) : Op → List Nat
  | Op.put k v => wbPut rep k v
  | Op.del k => wbDelete rep k
  | Op.merge k v => wbMerge rep k v
  | Op.logData b => wbPutLogData rep b

/-- The batch built by a sequence of builder calls on a fresh batch. -/
def buildBatch (ops : List Op) : List Nat := ops.foldl applyOp wbClear

/-! ## Concrete instances used by witnesses and counterexamples -/

/-- A handler over `Unit` that accepts everything. -/
def unitHandler : Handler Unit where
  put := fun s _ _ => Except.ok s
  del := fun s _ => Except.ok s
  merge := fun s _ _ => Except.ok s
  logData := fun s _ => Except.ok s
  contF := fun _ => true

/-- A handler whose `Continue()` override always requests a stop. -/
def stopHandler : Handler Unit where
  put := fun s _ _ => Except.ok s
  del := fun s _ => Except.ok s
  merge := fun s _ _ => Except.ok s
  logData := fun s _ => Except.ok s
  contF := fun _ => false

/-- A concrete memtable entry: one `Add(seq, type, key, value)` call. -/
structure MemEntry where
  seq : Nat
  ty : Nat
  key : List Nat
  value : List Nat
deriving DecidableEq

/-- A concrete memtable: the list of entries added, in order. -/
abbrev ListMem := List MemEntry

/-- A concrete applier environment over `ListMem`: `Add` appends an entry;
delete-filtering's may-exist probe always answers "definitely absent"; no
in-place update, no merge operator, threshold zero. -/
def listEnv : MTEnv ListMem where
  inplaceUpdateSupport := false
  inplaceCallback := none
  maxSuccessiveMerges := 0
  mergeOperator := none
  dbPresent := true
  add := fun m seq t k v => m ++ [⟨seq, t, k, v⟩]
  update := fun m _ _ _ => m
  updateCallback := fun _ _ _ _ => none
  countSuccessiveMergeEntries := fun _ _ _ => 0
  dbGet := fun _ _ => none
  keyMayExist := fun _ _ => false

/-- `listEnv` with a successive-merge threshold of one, a pending merge
chain of length one, and still no merge operator configured. -/
def listEnvThreshold : MTEnv ListMem :=
  { listEnv with
    maxSuccessiveMerges := 1,
    countSuccessiveMergeEntries := fun _ _ _ => 1 }

/-- `listEnvThreshold` with a merge operator that concatenates the existing
value with each operand. -/
def listEnvConcatMerge : MTEnv ListMem :=
  { listEnvThreshold with
    mergeOperator :=
      some (fun _ existing operands =>
        some (existing.getD [] ++ operands.flatten)),
    dbGet := fun _ _ => some [120] }

/-- A batch of three `Delete` calls at base sequence 100. -/
def threeDeletes : List Nat :=
  wbDelete (wbDelete (wbDelete (wbSetSequence wbClear 100) [97]) [98]) [99]

/-- The spec's worked example: `Put("a","1")`, `Delete("b")`,
`Merge("c","+1")`, `PutLogData("meta")`. -/
def exOps : List Op :=
  [Op.put [97] [49], Op.del [98], Op.merge [99] [43, 49],
   Op.logData [109, 101, 116, 97]]


/-- `listEnvConcatMerge` with the threshold left at zero: the eager path
never triggers. -/
def listEnvConcatMergeDeferred : MTEnv ListMem :=
  { listEnvConcatMerge with maxSuccessiveMerges := 0 }

/-- `listEnvConcatMerge` with a merge operator that always fails. -/
def listEnvFailMerge : MTEnv ListMem :=
  { listEnvConcatMerge with mergeOperator := some (fun _ _ _ => none) }

/-- A batch holding two point mutations (count 2). -/
def dstEx : List Nat := buildBatch [Op.put [97] [49], Op.del [98]]

/-- A batch holding three point mutations (count 3). -/
def srcEx : List Nat :=
  buildBatch [Op.put [99] [50], Op.del [100], Op.merge [101] [51]]

/-! # Theorems -/


/-- The varint32 encoder emits a byte sequence the decoder reads back,
leaving the remainder untouched. -/
theorem getVarint32_enc (n : Nat) (h : n < 2^32) (rest : List Nat) :
    getVarint32 (encVarint32 n ++ rest) = some (n, rest) := by
  have e1 : n / 128 / 128 = n / 16384 := by
    rw [Nat.div_div_eq_div_mul]
  have e2 : n / 16384 / 128 = n / 2097152 := by
    rw [Nat.div_div_eq_div_mul]
  have e3 : n / 2097152 / 128 = n / 268435456 := by
    rw [Nat.div_div_eq_div_mul]
  unfold getVarint32 encVarint32
  split_ifs with h1 h2 h3 h4
  · have hb0 : n < 128 := by omega
    simp [decVarint32, hb0]
  · have hb1 : ¬ (n % 128 + 128 < 128) := by omega
    have hb2 : n / 128 < 128 := by omega
    simp [decVarint32, hb1, hb2]
    omega
  · have hb1 : ¬ (n % 128 + 128 < 128) := by omega
    have hb2 : ¬ (n / 128 % 128 + 128 < 128) := by omega
    have hb3 : n / 16384 < 128 := by omega
    simp [decVarint32, hb1, hb2, hb3]
    omega
  · have hb1 : ¬ (n % 128 + 128 < 128) := by omega
    have hb2 : ¬ (n / 128 % 128 + 128 < 128) := by omega
    have hb3 : ¬ (n / 16384 % 128 + 128 < 128) := by omega
    have hb4 : n / 2097152 < 128 := by omega
    simp [decVarint32, hb1, hb2, hb3, hb4]
    omega
  · have hb1 : ¬ (n % 128 + 128 < 128) := by omega
    have hb2 : ¬ (n / 128 % 128 + 128 < 128) := by omega
    have hb3 : ¬ (n / 16384 % 128 + 128 < 128) := by omega
    have hb4 : ¬ (n / 2097152 % 128 + 128 < 128) := by omega
    have hb5 : n / 268435456 < 128 := by omega
    simp [decVarint32, hb1, hb2, hb3, hb4, hb5]
    omega



/-- The varint32 decoder only consumes bytes: the remainder is no longer
than the input. -/
theorem decVarint32_rest_length :
    ∀ fuel shift acc input n rest, decVarint32 fuel shift acc input = some (n, rest) →
      rest.length ≤ input.length := by
  intro fuel
  induction fuel with
  | zero =>
    intro shift acc input n rest hd
    cases input <;> simp [decVarint32] at hd
  | succ f ih =>
    intro shift acc input n rest hd
    cases input with
    | nil => simp [decVarint32] at hd
    | cons b bs =>
      by_cases hb : b < 128
      · simp [decVarint32, hb] at hd
        simp [← hd.2, List.length_cons]
      · simp [decVarint32, hb] at hd
        have := ih _ _ _ _ _ hd
        simp [List.length_cons]
        omega

/-- `GetLengthPrefixedSlice` only consumes bytes. -/
theorem getLengthPrefixedSlice_rest_length (input s rest : List Nat)
    (hd : getLengthPrefixedSlice input = some (s, rest)) :
    rest.length ≤ input.length := by
  unfold getLengthPrefixedSlice at hd
  cases hv : getVarint32 input with
  | none => rw [hv] at hd; cases hd
  | some p =>
    rw [hv] at hd
    obtain ⟨len, r⟩ := p
    by_cases hle : len ≤ r.length
    · simp [hle] at hd
      have h1 := decVarint32_rest_length 5 0 0 input len r hv
      have h2 : rest = r.drop len := hd.2.symm
      subst h2
      simp [List.length_drop]
      omega
    · simp [hle] at hd

/-- Round trip for length-prefixed slices. -/
theorem getLengthPrefixedSlice_enc (s : List Nat) (hs : s.length < 2^32)
    (rest : List Nat) :
    getLengthPrefixedSlice (putLengthPrefixedSlice s ++ rest) = some (s, rest) := by
  unfold getLengthPrefixedSlice putLengthPrefixedSlice
  rw [Nat.mod_eq_of_lt hs, List.append_assoc, getVarint32_enc s.length hs (s ++ rest)]
  simp [List.take_left, List.drop_left]



@[simp] theorem encFixed32_length (n : Nat) : (encFixed32 n).length = 4 := rfl

@[simp] theorem encFixed64_length (n : Nat) : (encFixed64 n).length = 8 := rfl

/-- Reading the four bytes written by the fixed32 encoder recovers the
value modulo `2^32`, whatever follows. -/
theorem decFixed32_enc (n : Nat) (rest : List Nat) :
    decFixed32 (encFixed32 n ++ rest) = n % 2^32 := by
  have e1 : n / 256 / 256 = n / 65536 := by rw [Nat.div_div_eq_div_mul]
  have e2 : n / 65536 / 256 = n / 16777216 := by rw [Nat.div_div_eq_div_mul]
  have e3 : n / 16777216 / 256 = n / 4294967296 := by rw [Nat.div_div_eq_div_mul]
  simp [decFixed32, encFixed32]
  omega

/-- Reading the first eight bytes written by the fixed64 encoder recovers
the value modulo `2^64`, whatever follows. -/
theorem decFixed64_enc (n : Nat) (rest : List Nat) :
    decFixed64 (encFixed64 n ++ rest) = n % 2^64 := by
  have e1 : n / 256 / 256 = n / 65536 := by rw [Nat.div_div_eq_div_mul]
  have e2 : n / 65536 / 256 = n / 16777216 := by rw [Nat.div_div_eq_div_mul]
  have e3 : n / 16777216 / 256 = n / 4294967296 := by rw [Nat.div_div_eq_div_mul]
  have e4 : n / 4294967296 / 256 = n / 1099511627776 := by rw [Nat.div_div_eq_div_mul]
  have e5 : n / 1099511627776 / 256 = n / 281474976710656 := by rw [Nat.div_div_eq_div_mul]
  have e6 : n / 281474976710656 / 256 = n / 72057594037927936 := by rw [Nat.div_div_eq_div_mul]
  have e7 : n / 72057594037927936 / 256 = n / 18446744073709551616 := by rw [Nat.div_div_eq_div_mul]
  simp [decFixed64, encFixed64]
  omega

/-- A batch in header-plus-body shape: its count field. -/
theorem wbCount_shape (seq c : Nat) (body : List Nat) :
    wbCount (encFixed64 seq ++ (encFixed32 c ++ body)) = c % 2^32 := by
  unfold wbCount
  rw [List.drop_left' (encFixed64_length seq), decFixed32_enc]

/-- A batch in header-plus-body shape: its sequence field. -/
theorem wbSequence_shape (seq c : Nat) (body : List Nat) :
    wbSequence (encFixed64 seq ++ (encFixed32 c ++ body)) = seq % 2^64 := by
  unfold wbSequence
  rw [decFixed64_enc]

/-- `SetCount` on a batch in header-plus-body shape rewrites only the
count field. -/
theorem wbSetCount_shape (seq c n : Nat) (body : List Nat) :
    wbSetCount (encFixed64 seq ++ (encFixed32 c ++ body)) n =
      encFixed64 seq ++ (encFixed32 n ++ body) := by
  unfold wbSetCount
  rw [List.take_left' (encFixed64_length seq), ← List.append_assoc,
    List.drop_left' (by simp)]
  simp

/-- `wbClear` in header-plus-body shape. -/
theorem wbClear_shape : wbClear = encFixed64 0 ++ (encFixed32 0 ++ []) := by
  rfl



/-- Folding builder calls over a batch in header-plus-body shape: the
sequence field is untouched, the count field grows by the number of
non-annotation calls, and the records' encodings are appended in order. -/
theorem foldl_applyOp_shape (ops : List Op) :
    ∀ (seq c : Nat) (body : List Nat), c + nonLog ops < 2^32 →
      ops.foldl applyOp (encFixed64 seq ++ (encFixed32 c ++ body)) =
        encFixed64 seq ++ (encFixed32 (c + nonLog ops) ++ (body ++ encOps ops)) := by
  induction ops with
  | nil => intro seq c body h; simp [nonLog, encOps]
  | cons op rest ih =>
    intro seq c body h
    have hn : nonLog (op :: rest) = (if opIsLogData op then 0 else 1) + nonLog rest := rfl
    rw [List.foldl_cons]
    cases op with
    | put k v =>
      have hc : c < 2^32 := by simp [opIsLogData] at hn; omega
      have step : applyOp (encFixed64 seq ++ (encFixed32 c ++ body)) (Op.put k v) =
          encFixed64 seq ++ (encFixed32 (c + 1) ++ (body ++ encOp (Op.put k v))) := by
        simp only [applyOp, wbPut]
        rw [wbCount_shape, Nat.mod_eq_of_lt hc, wbSetCount_shape]
        simp [encOp, List.append_assoc]
      rw [step, ih seq (c + 1) (body ++ encOp (Op.put k v))
        (by simp [opIsLogData] at hn; omega)]
      simp [hn, opIsLogData, encOps, List.append_assoc, Nat.add_assoc]
    | del k =>
      have hc : c < 2^32 := by simp [opIsLogData] at hn; omega
      have step : applyOp (encFixed64 seq ++ (encFixed32 c ++ body)) (Op.del k) =
          encFixed64 seq ++ (encFixed32 (c + 1) ++ (body ++ encOp (Op.del k))) := by
        simp only [applyOp, wbDelete]
        rw [wbCount_shape, Nat.mod_eq_of_lt hc, wbSetCount_shape]
        simp [encOp, List.append_assoc]
      rw [step, ih seq (c + 1) (body ++ encOp (Op.del k))
        (by simp [opIsLogData] at hn; omega)]
      simp [hn, opIsLogData, encOps, List.append_assoc, Nat.add_assoc]
    | merge k v =>
      have hc : c < 2^32 := by simp [opIsLogData] at hn; omega
      have step : applyOp (encFixed64 seq ++ (encFixed32 c ++ body)) (Op.merge k v) =
          encFixed64 seq ++ (encFixed32 (c + 1) ++ (body ++ encOp (Op.merge k v))) := by
        simp only [applyOp, wbMerge]
        rw [wbCount_shape, Nat.mod_eq_of_lt hc, wbSetCount_shape]
        simp [encOp, List.append_assoc]
      rw [step, ih seq (c + 1) (body ++ encOp (Op.merge k v))
        (by simp [opIsLogData] at hn; omega)]
      simp [hn, opIsLogData, encOps, List.append_assoc, Nat.add_assoc]
    | logData b =>
      have step : applyOp (encFixed64 seq ++ (encFixed32 c ++ body)) (Op.logData b) =
          encFixed64 seq ++ (encFixed32 c ++ (body ++ encOp (Op.logData b))) := by
        simp [applyOp, wbPutLogData, encOp, List.append_assoc]
      rw [step, ih seq c (body ++ encOp (Op.logData b))
        (by simp [opIsLogData] at hn; omega)]
      simp [hn, opIsLogData, encOps, List.append_assoc]

/-- The batch built by a call sequence, in header-plus-body shape. -/
theorem buildBatch_shape (ops : List Op) (h : nonLog ops < 2^32) :
    buildBatch ops =
      encFixed64 0 ++ (encFixed32 (nonLog ops) ++ encOps ops) := by
  unfold buildBatch
  rw [wbClear_shape, foldl_applyOp_shape ops 0 0 [] (by omega)]
  simp



@[simp] theorem recorder_contF (s : List Op) : recorder.contF s = true := rfl

@[simp] theorem recorder_put (s : List Op) (k v : List Nat) :
    recorder.put s k v = Except.ok (s ++ [Op.put k v]) := rfl

@[simp] theorem recorder_del (s : List Op) (k : List Nat) :
    recorder.del s k = Except.ok (s ++ [Op.del k]) := rfl

@[simp] theorem recorder_merge (s : List Op) (k v : List Nat) :
    recorder.merge s k v = Except.ok (s ++ [Op.merge k v]) := rfl

@[simp] theorem recorder_logData (s : List Op) (b : List Nat) :
    recorder.logData s b = Except.ok (s ++ [Op.logData b]) := rfl

/-- Replaying the encoding of a call sequence through the recording handler
delivers exactly that sequence, in order, bumping the found-counter once
per non-annotation record. -/
theorem iterLoop_recorder (ops : List Op) (hops : ∀ op ∈ ops, opSmall op = true) :
    ∀ (fuel : Nat) (buf : List Nat) (s : List Op) (found : Nat) (tr : List Op),
      (encOps ops).length ≤ fuel →
      iterLoop recorder fuel buf (encOps ops) s found tr =
        ⟨s ++ ops, found + nonLog ops, tr ++ ops, buf, LoopOutcome.clean⟩ := by
  induction ops with
  | nil =>
    intro fuel buf s found tr h
    simp [encOps, iterLoop, nonLog]
  | cons op rest ih =>
    intro fuel buf s found tr hf
    have hopS : opSmall op = true := hops op (by simp)
    have hrest : ∀ o ∈ rest, opSmall o = true := fun o ho => hops o (by simp [ho])
    cases op with
    | put k v =>
      have hk : k.length < 2^32 := by simp [opSmall] at hopS; omega
      have hv : v.length < 2^32 := by simp [opSmall] at hopS; omega
      cases fuel with
      | zero =>
        exfalso
        simp [encOps, encOp, List.length_append] at hf
      | succ f =>
        have hf' : (encOps rest).length ≤ f := by
          simp [encOps, encOp, List.length_append] at hf ⊢
          omega
        simp only [encOps, encOp, List.cons_append, List.append_assoc]
        simp only [iterLoop, recorder_contF, recorder_put, kTypeValue,
          kTypeDeletion, kTypeMerge, kTypeLogData,
          getLengthPrefixedSlice_enc k hk, getLengthPrefixedSlice_enc v hv]
        rw [if_neg (by simp)]
        rw [ih hrest f buf (s ++ [Op.put k v]) (found + 1) (tr ++ [Op.put k v]) hf']
        simp [nonLog, opIsLogData, List.append_assoc, Nat.add_assoc]
    | del k =>
      have hk : k.length < 2^32 := by simp [opSmall] at hopS; omega
      cases fuel with
      | zero =>
        exfalso
        simp [encOps, encOp, List.length_append] at hf
      | succ f =>
        have hf' : (encOps rest).length ≤ f := by
          simp [encOps, encOp, List.length_append] at hf ⊢
          omega
        simp only [encOps, encOp, List.cons_append, List.append_assoc]
        simp only [iterLoop, recorder_contF, recorder_del, kTypeValue,
          kTypeDeletion, kTypeMerge, kTypeLogData,
          getLengthPrefixedSlice_enc k hk]
        rw [if_neg (by simp)]
        rw [ih hrest f buf (s ++ [Op.del k]) (found + 1) (tr ++ [Op.del k]) hf']
        simp [nonLog, opIsLogData, List.append_assoc, Nat.add_assoc]
    | merge k v =>
      have hk : k.length < 2^32 := by simp [opSmall] at hopS; omega
      have hv : v.length < 2^32 := by simp [opSmall] at hopS; omega
      cases fuel with
      | zero =>
        exfalso
        simp [encOps, encOp, List.length_append] at hf
      | succ f =>
        have hf' : (encOps rest).length ≤ f := by
          simp [encOps, encOp, List.length_append] at hf ⊢
          omega
        simp only [encOps, encOp, List.cons_append, List.append_assoc]
        simp only [iterLoop, recorder_contF, recorder_merge, kTypeValue,
          kTypeDeletion, kTypeMerge, kTypeLogData,
          getLengthPrefixedSlice_enc k hk, getLengthPrefixedSlice_enc v hv]
        rw [if_neg (by simp)]
        rw [ih hrest f buf (s ++ [Op.merge k v]) (found + 1) (tr ++ [Op.merge k v]) hf']
        simp [nonLog, opIsLogData, List.append_assoc, Nat.add_assoc]
    | logData b =>
      have hb : b.length < 2^32 := by simp [opSmall] at hopS; omega
      cases fuel with
      | zero =>
        exfalso
        simp [encOps, encOp, List.length_append] at hf
      | succ f =>
        have hf' : (encOps rest).length ≤ f := by
          simp [encOps, encOp, List.length_append] at hf ⊢
          omega
        simp only [encOps, encOp, List.cons_append, List.append_assoc]
        simp only [iterLoop, recorder_contF, recorder_logData, kTypeValue,
          kTypeDeletion, kTypeMerge, kTypeLogData,
          getLengthPrefixedSlice_enc b hb]
        rw [if_neg (by simp)]
        rw [ih hrest f buf (s ++ [Op.logData b]) found (tr ++ [Op.logData b]) hf']
        simp [nonLog, opIsLogData, List.append_assoc, Nat.add_assoc]



/-- C3: for every finite sequence of `Put`/`Delete`/`Merge`/`PutLogData`
calls on a fresh batch (zero-length keys and values included; all slice
lengths and the non-annotation count within 32 bits, as the builder passes
them through 32-bit fields), `Iterate` with a recording handler succeeds
and reproduces exactly the same operation sequence in the same order with
the same keys, values and blobs, and `Count()` equals the number `N` of
non-`LogData` calls regardless of the number of `PutLogData` calls. -/
theorem C3_round_trip (ops : List Op) (hops : ∀ op ∈ ops, opSmall op = true)
    (hN : nonLog ops < 2^32) :
    iterate (buildBatch ops) recorder [] =
      ⟨ops, Except.ok Status.ok, ops, buildBatch ops⟩ ∧
    wbCount (buildBatch ops) = nonLog ops := by
  have hshape := buildBatch_shape ops hN
  have hcount : wbCount (buildBatch ops) = nonLog ops := by
    rw [hshape, wbCount_shape, Nat.mod_eq_of_lt hN]
  refine ⟨?_, hcount⟩
  unfold iterate
  have hlen : ¬ (buildBatch ops).length < kHeader := by
    rw [hshape]; simp [kHeader]; omega
  rw [if_neg hlen]
  have hdrop : (buildBatch ops).drop kHeader = encOps ops := by
    rw [hshape, ← List.append_assoc, List.drop_left' (by simp [kHeader])]
  simp only [hdrop]
  rw [iterLoop_recorder ops hops _ _ _ _ _ (le_refl _)]
  simp [hcount]




/-- The replay loop never writes the batch bytes: the `buf` component it
threads through is returned unchanged on every path. -/
theorem iterLoop_buf {σ : Type} (h : Handler σ) (buf : List Nat) :
    ∀ (fuel : Nat) (input : List Nat) (s : σ) (found : Nat) (tr : List Op),
      (iterLoop h fuel buf input s found tr).buf = buf := by
  intro fuel
  induction fuel with
  | zero => intro input s found tr; cases input <;> rfl
  | succ f ih =>
    intro input s found tr
    cases input with
    | nil => rfl
    | cons tag rest =>
      simp only [iterLoop]
      repeat' split
      all_goals first | rfl | apply ih

/-- `Iterate` returns the batch bytes unchanged. -/
theorem iterate_buf {σ : Type} (rep : List Nat) (h : Handler σ) (s : σ) :
    (iterate rep h s).buf = rep := by
  have hb := iterLoop_buf h rep (rep.drop kHeader).length (rep.drop kHeader) s 0 []
  unfold iterate
  split
  · rfl
  · split
    · rename_i heq
      split
      · rw [← hb, heq]
      · rw [← hb, heq]
    · rename_i heq
      rw [← hb, heq]
    · rename_i heq
      rw [← hb, heq]
    · rename_i heq
      rw [← hb, heq]



/-- With fuel at least the input length, the replay loop never runs out of
fuel, and the only corruption messages it can produce are the four
record-kind decode failures and the unknown-tag failure. -/
theorem iterLoop_class {σ : Type} (h : Handler σ) (buf : List Nat) :
    ∀ (fuel : Nat) (input : List Nat) (s : σ) (found : Nat) (tr : List Op),
      input.length ≤ fuel →
      (iterLoop h fuel buf input s found tr).outcome ≠ LoopOutcome.nofuel ∧
      (∀ m, (iterLoop h fuel buf input s found tr).outcome = LoopOutcome.corrupt m →
        m = "bad WriteBatch Put" ∨ m = "bad WriteBatch Delete" ∨
        m = "bad WriteBatch Merge" ∨ m = "bad WriteBatch Blob" ∨
        m = "unknown WriteBatch tag") := by
  intro fuel
  induction fuel with
  | zero =>
    intro input s found tr hle
    cases input with
    | nil => exact ⟨by simp [iterLoop], by simp [iterLoop]⟩
    | cons a b => simp at hle
  | succ f ih =>
    intro input s found tr hle
    cases input with
    | nil => exact ⟨by simp [iterLoop], by simp [iterLoop]⟩
    | cons tag rest =>
      have hrest : rest.length ≤ f := by simp at hle; omega
      by_cases hc : h.contF s = false
      · have heq : iterLoop h (f + 1) buf (tag :: rest) s found tr =
            ⟨s, found, tr, buf, LoopOutcome.clean⟩ := by
          simp [iterLoop, hc]
        rw [heq]
        exact ⟨by simp, by simp⟩
      · by_cases h1 : tag = kTypeValue
        · cases hg1 : getLengthPrefixedSlice rest with
          | none =>
            have heq : iterLoop h (f + 1) buf (tag :: rest) s found tr =
                ⟨s, found, tr, buf, LoopOutcome.corrupt "bad WriteBatch Put"⟩ := by
              simp [iterLoop, hc, h1, hg1]
            rw [heq]
            exact ⟨by simp, by intro m hm; simp at hm; tauto⟩
          | some p1 =>
            obtain ⟨key, r1⟩ := p1
            have l1 := getLengthPrefixedSlice_rest_length _ _ _ hg1
            cases hg2 : getLengthPrefixedSlice r1 with
            | none =>
              have heq : iterLoop h (f + 1) buf (tag :: rest) s found tr =
                  ⟨s, found, tr, buf, LoopOutcome.corrupt "bad WriteBatch Put"⟩ := by
                simp [iterLoop, hc, h1, hg1, hg2]
              rw [heq]
              exact ⟨by simp, by intro m hm; simp at hm; tauto⟩
            | some p2 =>
              obtain ⟨value, r2⟩ := p2
              have l2 := getLengthPrefixedSlice_rest_length _ _ _ hg2
              cases hput : h.put s key value with
              | error e =>
                have heq : iterLoop h (f + 1) buf (tag :: rest) s found tr =
                    ⟨s, found, tr, buf, LoopOutcome.exn e⟩ := by
                  simp [iterLoop, hc, h1, hg1, hg2, hput]
                rw [heq]
                exact ⟨by simp, by simp⟩
              | ok s' =>
                have heq : iterLoop h (f + 1) buf (tag :: rest) s found tr =
                    iterLoop h f buf r2 s' (found + 1) (tr ++ [Op.put key value]) := by
                  simp [iterLoop, hc, h1, hg1, hg2, hput]
                rw [heq]
                exact ih r2 s' (found + 1) (tr ++ [Op.put key value]) (by omega)
        · by_cases h2 : tag = kTypeDeletion
          · cases hg1 : getLengthPrefixedSlice rest with
            | none =>
              have heq : iterLoop h (f + 1) buf (tag :: rest) s found tr =
                  ⟨s, found, tr, buf, LoopOutcome.corrupt "bad WriteBatch Delete"⟩ := by
                simp [iterLoop, hc, h2, kTypeDeletion, kTypeValue, hg1]
              rw [heq]
              exact ⟨by simp, by intro m hm; simp at hm; tauto⟩
            | some p1 =>
              obtain ⟨key, r1⟩ := p1
              have l1 := getLengthPrefixedSlice_rest_length _ _ _ hg1
              cases hdel : h.del s key with
              | error e =>
                have heq : iterLoop h (f + 1) buf (tag :: rest) s found tr =
                    ⟨s, found, tr, buf, LoopOutcome.exn e⟩ := by
                  simp [iterLoop, hc, h2, kTypeDeletion, kTypeValue, hg1, hdel]
                rw [heq]
                exact ⟨by simp, by simp⟩
              | ok s' =>
                have heq : iterLoop h (f + 1) buf (tag :: rest) s found tr =
                    iterLoop h f buf r1 s' (found + 1) (tr ++ [Op.del key]) := by
                  simp [iterLoop, hc, h2, kTypeDeletion, kTypeValue, hg1, hdel]
                rw [heq]
                exact ih r1 s' (found + 1) (tr ++ [Op.del key]) (by omega)
          · by_cases h3 : tag = kTypeMerge
            · cases hg1 : getLengthPrefixedSlice rest with
              | none =>
                have heq : iterLoop h (f + 1) buf (tag :: rest) s found tr =
                    ⟨s, found, tr, buf, LoopOutcome.corrupt "bad WriteBatch Merge"⟩ := by
                  simp [iterLoop, hc, h3, kTypeMerge, kTypeValue, kTypeDeletion, hg1]
                rw [heq]
                exact ⟨by simp, by intro m hm; simp at hm; tauto⟩
              | some p1 =>
                obtain ⟨key, r1⟩ := p1
                have l1 := getLengthPrefixedSlice_rest_length _ _ _ hg1
                cases hg2 : getLengthPrefixedSlice r1 with
                | none =>
                  have heq : iterLoop h (f + 1) buf (tag :: rest) s found tr =
                      ⟨s, found, tr, buf, LoopOutcome.corrupt "bad WriteBatch Merge"⟩ := by
                    simp [iterLoop, hc, h3, kTypeMerge, kTypeValue, kTypeDeletion, hg1, hg2]
                  rw [heq]
                  exact ⟨by simp, by intro m hm; simp at hm; tauto⟩
                | some p2 =>
                  obtain ⟨value, r2⟩ := p2
                  have l2 := getLengthPrefixedSlice_rest_length _ _ _ hg2
                  cases hmer : h.merge s key value with
                  | error e =>
                    have heq : iterLoop h (f + 1) buf (tag :: rest) s found tr =
                        ⟨s, found, tr, buf, LoopOutcome.exn e⟩ := by
                      simp [iterLoop, hc, h3, kTypeMerge, kTypeValue, kTypeDeletion, hg1, hg2, hmer]
                    rw [heq]
                    exact ⟨by simp, by simp⟩
                  | ok s' =>
                    have heq : iterLoop h (f + 1) buf (tag :: rest) s found tr =
                        iterLoop h f buf r2 s' (found + 1) (tr ++ [Op.merge key value]) := by
                      simp [iterLoop, hc, h3, kTypeMerge, kTypeValue, kTypeDeletion, hg1, hg2, hmer]
                    rw [heq]
                    exact ih r2 s' (found + 1) (tr ++ [Op.merge key value]) (by omega)
            · by_cases h4 : tag = kTypeLogData
              · cases hg1 : getLengthPrefixedSlice rest with
                | none =>
                  have heq : iterLoop h (f + 1) buf (tag :: rest) s found tr =
                      ⟨s, found, tr, buf, LoopOutcome.corrupt "bad WriteBatch Blob"⟩ := by
                    simp [iterLoop, hc, h4, kTypeLogData, kTypeValue, kTypeDeletion, kTypeMerge, hg1]
                  rw [heq]
                  exact ⟨by simp, by intro m hm; simp at hm; tauto⟩
                | some p1 =>
                  obtain ⟨blob, r1⟩ := p1
                  have l1 := getLengthPrefixedSlice_rest_length _ _ _ hg1
                  cases hlog : h.logData s blob with
                  | error e =>
                    have heq : iterLoop h (f + 1) buf (tag :: rest) s found tr =
                        ⟨s, found, tr, buf, LoopOutcome.exn e⟩ := by
                      simp [iterLoop, hc, h4, kTypeLogData, kTypeValue, kTypeDeletion, kTypeMerge, hg1, hlog]
                    rw [heq]
                    exact ⟨by simp, by simp⟩
                  | ok s' =>
                    have heq : iterLoop h (f + 1) buf (tag :: rest) s found tr =
                        iterLoop h f buf r1 s' found (tr ++ [Op.logData blob]) := by
                      simp [iterLoop, hc, h4, kTypeLogData, kTypeValue, kTypeDeletion, kTypeMerge, hg1, hlog]
                    rw [heq]
                    exact ih r1 s' found (tr ++ [Op.logData blob]) (by omega)
              · have heq : iterLoop h (f + 1) buf (tag :: rest) s found tr =
                    ⟨s, found, tr, buf, LoopOutcome.corrupt "unknown WriteBatch tag"⟩ := by
                  simp [iterLoop, hc, h1, h2, h3, h4]
                rw [heq]
                exact ⟨by simp, by intro m hm; simp at hm; tauto⟩



@[simp] theorem defaultHandler_contF {σ : Type}
    (putF : σ → List Nat → List Nat → Except String σ)
    (delF : σ → List Nat → Except String σ) (s : σ) :
    (defaultHandler putF delF).contF s = true := rfl

@[simp] theorem defaultHandler_put {σ : Type}
    (putF : σ → List Nat → List Nat → Except String σ)
    (delF : σ → List Nat → Except String σ) (s : σ) (k v : List Nat) :
    (defaultHandler putF delF).put s k v = putF s k v := rfl

@[simp] theorem defaultHandler_del {σ : Type}
    (putF : σ → List Nat → List Nat → Except String σ)
    (delF : σ → List Nat → Except String σ) (s : σ) (k : List Nat) :
    (defaultHandler putF delF).del s k = delF s k := rfl

@[simp] theorem defaultHandler_merge {σ : Type}
    (putF : σ → List Nat → List Nat → Except String σ)
    (delF : σ → List Nat → Except String σ) (s : σ) (k v : List Nat) :
    (defaultHandler putF delF).merge s k v =
      Except.error "Handler::Merge not implemented!" := rfl

@[simp] theorem defaultHandler_logData {σ : Type}
    (putF : σ → List Nat → List Nat → Except String σ)
    (delF : σ → List Nat → Except String σ) (s : σ) (b : List Nat) :
    (defaultHandler putF delF).logData s b = Except.ok s := rfl

/-- `encOps` distributes over append. -/
theorem encOps_append (a b : List Op) : encOps (a ++ b) = encOps a ++ encOps b := by
  induction a with
  | nil => simp [encOps]
  | cons op rest ih => simp [encOps, ih, List.append_assoc]

/-- Replaying a merge-free, well-formed prefix through a subclass of the
default handler whose `Put`/`Delete` never throw runs the loop forward to
the remaining bytes. -/
theorem iterLoop_defaultHandler_run {σ : Type}
    (pf : σ → List Nat → List Nat → σ) (df : σ → List Nat → σ)
    (pre : List Op)
    (hpre : ∀ op ∈ pre, opIsMerge op = false ∧ opSmall op = true) :
    ∀ (fuel : Nat) (buf tail : List Nat) (s : σ) (found : Nat) (tr : List Op),
      (encOps pre).length + tail.length ≤ fuel →
      ∃ (f2 : Nat) (s2 : σ) (found2 : Nat),
        tail.length ≤ f2 ∧
        iterLoop (defaultHandler (fun s k v => Except.ok (pf s k v))
            (fun s k => Except.ok (df s k))) fuel buf (encOps pre ++ tail) s found tr =
        iterLoop (defaultHandler (fun s k v => Except.ok (pf s k v))
            (fun s k => Except.ok (df s k))) f2 buf tail s2 found2 (tr ++ pre) := by
  induction pre with
  | nil =>
    intro fuel buf tail s found tr hf
    exact ⟨fuel, s, found, by simpa [encOps] using hf, by simp [encOps]⟩
  | cons op rest ih =>
    intro fuel buf tail s found tr hf
    have hop := hpre op (by simp)
    have hrest : ∀ o ∈ rest, opIsMerge o = false ∧ opSmall o = true :=
      fun o ho => hpre o (by simp [ho])
    cases op with
    | put k v =>
      have hk : k.length < 2^32 := by simp [opSmall] at hop; omega
      have hv : v.length < 2^32 := by simp [opSmall] at hop; omega
      cases fuel with
      | zero => exfalso; simp [encOps, encOp] at hf
      | succ f =>
        have hf' : (encOps rest).length + tail.length ≤ f := by
          simp [encOps, encOp, List.length_append] at hf ⊢
          omega
        obtain ⟨f2, s2, found2, hle2, heq2⟩ :=
          ih hrest f buf tail (pf s k v) (found + 1) (tr ++ [Op.put k v]) hf'
        refine ⟨f2, s2, found2, hle2, ?_⟩
        simp only [encOps, encOp, List.cons_append, List.append_assoc]
        simp only [iterLoop, defaultHandler_contF, defaultHandler_put,
          kTypeValue, kTypeDeletion, kTypeMerge, kTypeLogData,
          getLengthPrefixedSlice_enc k hk, getLengthPrefixedSlice_enc v hv]
        rw [if_neg (by simp), heq2]
        simp
    | del k =>
      have hk : k.length < 2^32 := by simp [opSmall] at hop; omega
      cases fuel with
      | zero => exfalso; simp [encOps, encOp] at hf
      | succ f =>
        have hf' : (encOps rest).length + tail.length ≤ f := by
          simp [encOps, encOp, List.length_append] at hf ⊢
          omega
        obtain ⟨f2, s2, found2, hle2, heq2⟩ :=
          ih hrest f buf tail (df s k) (found + 1) (tr ++ [Op.del k]) hf'
        refine ⟨f2, s2, found2, hle2, ?_⟩
        simp only [encOps, encOp, List.cons_append, List.append_assoc]
        simp only [iterLoop, defaultHandler_contF, defaultHandler_del,
          kTypeValue, kTypeDeletion, kTypeMerge, kTypeLogData,
          getLengthPrefixedSlice_enc k hk]
        rw [if_neg (by simp), heq2]
        simp
    | merge k v => simp [opIsMerge] at hop
    | logData b =>
      have hb : b.length < 2^32 := by simp [opSmall] at hop; omega
      cases fuel with
      | zero => exfalso; simp [encOps, encOp] at hf
      | succ f =>
        have hf' : (encOps rest).length + tail.length ≤ f := by
          simp [encOps, encOp, List.length_append] at hf ⊢
          omega
        obtain ⟨f2, s2, found2, hle2, heq2⟩ :=
          ih hrest f buf tail s found (tr ++ [Op.logData b]) hf'
        refine ⟨f2, s2, found2, hle2, ?_⟩
        simp only [encOps, encOp, List.cons_append, List.append_assoc]
        simp only [iterLoop, defaultHandler_contF, defaultHandler_logData,
          kTypeValue, kTypeDeletion, kTypeMerge, kTypeLogData,
          getLengthPrefixedSlice_enc b hb]
        rw [if_neg (by simp), heq2]
        simp

/-- Reading the first eight bytes of an 8-byte prefix ignores the suffix. -/
theorem decFixed64_firstEight (l1 l2 : List Nat) (h : l1.length = 8) :
    decFixed64 (l1 ++ l2) = decFixed64 l1 := by
  unfold decFixed64
  rw [List.getD_append _ _ _ _ (by omega), List.getD_append _ _ _ _ (by omega),
    List.getD_append _ _ _ _ (by omega), List.getD_append _ _ _ _ (by omega),
    List.getD_append _ _ _ _ (by omega), List.getD_append _ _ _ _ (by omega),
    List.getD_append _ _ _ _ (by omega), List.getD_append _ _ _ _ (by omega)]

/-- C4: for every pair of batches with valid (ge 12 byte) headers,
`Append(dst, src)` sets `dst`'s count field to the sum of the two counts
(as a 32-bit field, hence exactly the sum whenever it fits in 32 bits),
appends exactly `src`'s body bytes (its buffer minus the 12-byte header)
after `dst`'s existing bytes, and leaves `dst`'s 8-byte sequence-number
field unchanged. -/
theorem C4_append (dst src : List Nat) (hd : kHeader ≤ dst.length)
    (hs : kHeader ≤ src.length) :
    wbAppend dst src =
      dst.take 8 ++ encFixed32 (wbCount dst + wbCount src) ++
        (dst.drop 12 ++ src.drop 12) ∧
    wbCount (wbAppend dst src) = (wbCount dst + wbCount src) % 2^32 ∧
    (wbCount dst + wbCount src < 2^32 →
      wbCount (wbAppend dst src) = wbCount dst + wbCount src) ∧
    (wbAppend dst src).take 8 = dst.take 8 ∧
    wbSequence (wbAppend dst src) = wbSequence dst := by
  have htk : (dst.take 8).length = 8 := by
    simp [kHeader] at hd
    simp [List.length_take]
    omega
  have hstruct : wbAppend dst src =
      dst.take 8 ++ encFixed32 (wbCount dst + wbCount src) ++
        (dst.drop 12 ++ src.drop 12) := by
    simp [wbAppend, wbSetCount, kHeader, List.append_assoc]
  have hcnt : wbCount (wbAppend dst src) = (wbCount dst + wbCount src) % 2^32 := by
    rw [hstruct]
    unfold wbCount
    rw [List.append_assoc, List.drop_left' htk, decFixed32_enc]
  refine ⟨hstruct, hcnt, ?_, ?_, ?_⟩
  · intro hlt
    rw [hcnt, Nat.mod_eq_of_lt hlt]
  · rw [hstruct, List.append_assoc, List.take_left' htk]
  · rw [hstruct]
    unfold wbSequence
    rw [List.append_assoc, decFixed64_firstEight _ _ htk]
    conv_rhs => rw [← List.take_append_drop 8 dst]
    rw [decFixed64_firstEight _ _ htk]

/-- C9: for every key and value fragment list, the multi-part
`Put(keyParts, valueParts)` produces a byte-for-byte identical batch
encoding (same tag, same length prefixes, same payload bytes, same count
increment) as the single-slice `Put` applied to the concatenations of the
fragments. -/
theorem C9_sliceparts (rep : List Nat) (keyParts valueParts : List (List Nat)) :
    wbPutParts rep keyParts valueParts =
      wbPut rep keyParts.flatten valueParts.flatten := by
  unfold wbPutParts wbPut putLengthPrefixedSliceParts putLengthPrefixedSlice
  rw [List.length_flatten, List.length_flatten]

/-- C6: `Iterate` is a read-only, deterministic function of the batch's
bytes and the handler: two dispatches of the same batch from equal handler
states yield identical handler call sequences, results and final states,
and the batch's byte buffer is unchanged by dispatch. -/
theorem C6_deterministic (rep : List Nat) {σ : Type} (h : Handler σ)
    (s1 s2 : σ) (hs : s1 = s2) :
    (iterate rep h s1).trace = (iterate rep h s2).trace ∧
    (iterate rep h s1).result = (iterate rep h s2).result ∧
    (iterate rep h s1).state = (iterate rep h s2).state ∧
    (iterate rep h s1).buf = rep := by
  subst hs
  exact ⟨rfl, rfl, rfl, iterate_buf rep h s1⟩

/-- C2 (amended): the count post-check runs unconditionally after the
replay loop, not only on buffer exhaustion: when the handler's
`Continue()` stops replay immediately on a batch with a valid header and a
nonzero declared count, `Iterate` fails with the count-mismatch corruption
error even though records are still unconsumed and no handler mutation was
delivered. -/
theorem C2_postcheck_unconditional {σ : Type} (rep : List Nat) (h : Handler σ)
    (s : σ) (hlen : kHeader ≤ rep.length) (hcont : h.contF s = false)
    (hcount : wbCount rep ≠ 0) :
    (iterate rep h s).result =
      Except.ok (Status.corruption "WriteBatch has wrong count") ∧
    (iterate rep h s).trace = [] := by
  unfold iterate
  rw [if_neg (by omega)]
  have hloop : iterLoop h (rep.drop kHeader).length rep (rep.drop kHeader) s 0 [] =
      ⟨s, 0, [], rep, LoopOutcome.clean⟩ := by
    cases hdrop : rep.drop kHeader with
    | nil => simp [iterLoop]
    | cons t r => simp [iterLoop, hcont]
  rw [hloop]
  have hne : (0 : Nat) ≠ wbCount rep := fun hz => hcount hz.symm
  simp [hne]

/-- C5: `Iterate` fails with a corruption error, making no further
handler calls (state and trace returned unchanged — calls already
delivered are kept, not rolled back) and abandoning the rest of the
buffer, in exactly these decode-failure cases: a buffer shorter than the
12-byte header ("too small", before any handler call), an unassigned tag
byte ("unknown tag"), and a truncated or malformed length-prefixed payload
after a tag (a record-kind-specific "bad" error); the final conjunct shows
these, plus the post-check's count mismatch, are the only corruption
messages `Iterate` can produce. -/
theorem C5_corruption {σ : Type} (h : Handler σ) :
    (∀ (rep : List Nat) (s : σ), rep.length < kHeader →
      iterate rep h s =
        ⟨s, Except.ok (Status.corruption "malformed WriteBatch (too small)"),
          [], rep⟩) ∧
    (∀ (fuel : Nat) (buf : List Nat) (t : Nat) (rest : List Nat) (s : σ)
        (found : Nat) (tr : List Op),
      h.contF s = true → t ≠ kTypeDeletion → t ≠ kTypeValue → t ≠ kTypeMerge →
      t ≠ kTypeLogData →
      iterLoop h (fuel + 1) buf (t :: rest) s found tr =
        ⟨s, found, tr, buf, LoopOutcome.corrupt "unknown WriteBatch tag"⟩) ∧
    (∀ (fuel : Nat) (buf rest : List Nat) (s : σ) (found : Nat) (tr : List Op),
      h.contF s = true →
      (getLengthPrefixedSlice rest = none ∨
        ∃ key r1, getLengthPrefixedSlice rest = some (key, r1) ∧
          getLengthPrefixedSlice r1 = none) →
      iterLoop h (fuel + 1) buf (kTypeValue :: rest) s found tr =
        ⟨s, found, tr, buf, LoopOutcome.corrupt "bad WriteBatch Put"⟩) ∧
    (∀ (fuel : Nat) (buf rest : List Nat) (s : σ) (found : Nat) (tr : List Op),
      h.contF s = true → getLengthPrefixedSlice rest = none →
      iterLoop h (fuel + 1) buf (kTypeDeletion :: rest) s found tr =
        ⟨s, found, tr, buf, LoopOutcome.corrupt "bad WriteBatch Delete"⟩) ∧
    (∀ (fuel : Nat) (buf rest : List Nat) (s : σ) (found : Nat) (tr : List Op),
      h.contF s = true →
      (getLengthPrefixedSlice rest = none ∨
        ∃ key r1, getLengthPrefixedSlice rest = some (key, r1) ∧
          getLengthPrefixedSlice r1 = none) →
      iterLoop h (fuel + 1) buf (kTypeMerge :: rest) s found tr =
        ⟨s, found, tr, buf, LoopOutcome.corrupt "bad WriteBatch Merge"⟩) ∧
    (∀ (fuel : Nat) (buf rest : List Nat) (s : σ) (found : Nat) (tr : List Op),
      h.contF s = true → getLengthPrefixedSlice rest = none →
      iterLoop h (fuel + 1) buf (kTypeLogData :: rest) s found tr =
        ⟨s, found, tr, buf, LoopOutcome.corrupt "bad WriteBatch Blob"⟩) ∧
    (∀ (rep : List Nat) (s : σ) (m : String),
      (iterate rep h s).result = Except.ok (Status.corruption m) →
      m = "malformed WriteBatch (too small)" ∨ m = "bad WriteBatch Put" ∨
      m = "bad WriteBatch Delete" ∨ m = "bad WriteBatch Merge" ∨
      m = "bad WriteBatch Blob" ∨ m = "unknown WriteBatch tag" ∨
      m = "WriteBatch has wrong count") := by
  refine ⟨?_, ?_, ?_, ?_, ?_, ?_, ?_⟩
  · intro rep s hlen
    unfold iterate
    rw [if_pos hlen]
  · intro fuel buf t rest s found tr hc h0 h1 h2 h3
    have hc2 : ¬ h.contF s = false := by simp [hc]
    simp [iterLoop, hc2, h0, h1, h2, h3]
  · intro fuel buf rest s found tr hc hbad
    have hc2 : ¬ h.contF s = false := by simp [hc]
    rcases hbad with hg1 | ⟨key, r1, hg1, hg2⟩
    · simp [iterLoop, hc2, hg1]
    · simp [iterLoop, hc2, hg1, hg2]
  · intro fuel buf rest s found tr hc hg1
    have hc2 : ¬ h.contF s = false := by simp [hc]
    simp [iterLoop, hc2, hg1, kTypeDeletion, kTypeValue]
  · intro fuel buf rest s found tr hc hbad
    have hc2 : ¬ h.contF s = false := by simp [hc]
    rcases hbad with hg1 | ⟨key, r1, hg1, hg2⟩
    · simp [iterLoop, hc2, hg1, kTypeMerge, kTypeValue, kTypeDeletion]
    · simp [iterLoop, hc2, hg1, hg2, kTypeMerge, kTypeValue, kTypeDeletion]
  · intro fuel buf rest s found tr hc hg1
    have hc2 : ¬ h.contF s = false := by simp [hc]
    simp [iterLoop, hc2, hg1, kTypeLogData, kTypeValue, kTypeDeletion, kTypeMerge]
  · intro rep s m hm
    unfold iterate at hm
    by_cases hlen : rep.length < kHeader
    · rw [if_pos hlen] at hm
      simp at hm
      tauto
    · rw [if_neg hlen] at hm
      have cls := iterLoop_class h rep (rep.drop kHeader).length (rep.drop kHeader)
        s 0 [] (le_refl _)
      rcases hout : iterLoop h (rep.drop kHeader).length rep (rep.drop kHeader) s 0 []
        with ⟨st, fnd, trc, bufo, outc⟩
      rw [hout] at hm cls
      cases outc with
      | clean =>
        by_cases hf : fnd ≠ wbCount rep
        · simp [hf] at hm
          tauto
        · simp [hf] at hm
      | corrupt mm =>
        simp at hm
        subst hm
        have := cls.2 mm rfl
        tauto
      | exn e => simp at hm
      | nofuel => exact absurd rfl cls.1


/-- C1 (code bug evaluation): a batch of three `Delete` calls at base
sequence 100 replayed through the applier with delete-filtering enabled
and a may-exist probe that always answers "definitely absent" makes all
three `Delete` handler calls and filters all three (zero table writes,
three filtered-delete ticks), yet leaves the running sequence at 100, not
103: the early `return` on the filtered path skips `sequence_++`,
contradicting the claim (and the design rule stated in `Put`'s comment
that the sequence is always bumped even when no table write results). -/
theorem C1_filtered_deletes_do_not_advance_sequence :
    wbSequence threeDeletes = 100 ∧ wbCount threeDeletes = 3 ∧
    (insertInto listEnv true threeDeletes []).result = Except.ok Status.ok ∧
    (insertInto listEnv true threeDeletes []).trace =
      [Op.del [97], Op.del [98], Op.del [99]] ∧
    (insertInto listEnv true threeDeletes []).state.mem = [] ∧
    (insertInto listEnv true threeDeletes []).state.ticks =
      [Tick.numberFilteredDeletes, Tick.numberFilteredDeletes,
        Tick.numberFilteredDeletes] ∧
    (insertInto listEnv true threeDeletes []).state.sequence = 100 := by
  decide

/-- C7 counterexample: with no merge function configured and the
successive-merge threshold at zero (the deferred path), the applier's
`Merge` does not fail at all — it silently appends the operand as a
deferred `Merge` record and advances the sequence, refuting the claim that
it fails loudly on the deferred path. -/
theorem C7_counterexample :
    listEnv.mergeOperator = none ∧
    mergeTriggers listEnv ⟨5, ([] : ListMem), []⟩ [107] = false ∧
    mtiMerge listEnv ⟨5, ([] : ListMem), []⟩ [107] [111] =
      Except.ok ⟨6, [⟨5, kTypeMerge, [107], [111]⟩], []⟩ :=
  ⟨rfl, by decide, by decide⟩

/-- C7 (amended): with no merge function configured, the applier's
`Merge` fails loudly (the `assert(merge_operator)` dies) only on the
eager-resolution path, i.e. when the successive-merge trigger fires; on
the deferred path (threshold zero or not reached) it appends the operand
as a deferred `Merge` record without consulting the merge function, and
advances the sequence. -/
theorem C7_no_merge_operator {τ : Type} (env : MTEnv τ) (st : MTState τ)
    (k v : List Nat) (hmo : env.mergeOperator = none) :
    (mergeTriggers env st k = true →
      mtiMerge env st k v = Except.error "assert(merge_operator) failed") ∧
    (mergeTriggers env st k = false →
      mtiMerge env st k v =
        Except.ok ⟨(st.sequence + 1) % 2^64,
          env.add st.mem st.sequence kTypeMerge k v, st.ticks⟩) := by
  constructor <;> intro ht <;> simp [mtiMerge, ht, hmo]

/-- Witness for C7: both branches of the amended claim evaluated at
concrete environments — with threshold 1 and a pending merge chain the
call dies on the assert; with threshold 0 it appends the deferred record. -/
theorem C7_no_merge_operator_witness :
    mtiMerge listEnvThreshold ⟨5, ([] : ListMem), []⟩ [107] [111] =
      Except.error "assert(merge_operator) failed" ∧
    mtiMerge listEnv ⟨5, ([] : ListMem), []⟩ [107] [111] =
      Except.ok ⟨6, [⟨5, kTypeMerge, [107], [111]⟩], []⟩ := by
  refine ⟨(C7_no_merge_operator listEnvThreshold ⟨5, [], []⟩ [107] [111]
    rfl).1 (by decide), ?_⟩
  have h2 := (C7_no_merge_operator listEnv ⟨5, [], []⟩ [107] [111]
    rfl).2 (by decide)
  simpa [listEnv] using h2

/-- C8: when a successive-merge threshold > 0 is configured (and a db
handle is present) and the pending-merge chain at the head of the key's
entries reaches the threshold, the applier's `Merge` resolves eagerly: it
reads the base value via `Get` at a snapshot pinned to the current
sequence, folds the operand through `FullMerge`, and on success adds the
resolved value as a plain `Value` record at the current sequence; on merge
failure it ticks the merge-failure metric and adds a deferred `Merge`
record; otherwise (threshold zero or not reached) it adds the deferred
`Merge` record unchanged.  The last conjunct characterises the trigger. -/
theorem C8_successive_merge_policy {τ : Type} (env : MTEnv τ) (st : MTState τ)
    (k v : List Nat)
    (mop : List Nat → Option (List Nat) → List (List Nat) → Option (List Nat))
    (hmo : env.mergeOperator = some mop) :
    (mergeTriggers env st k = true →
      (∀ nv, mop k (some ((env.dbGet st.sequence k).getD [])) [v] = some nv →
        mtiMerge env st k v =
          Except.ok ⟨(st.sequence + 1) % 2^64,
            env.add st.mem st.sequence kTypeValue k nv, st.ticks⟩) ∧
      (mop k (some ((env.dbGet st.sequence k).getD [])) [v] = none →
        mtiMerge env st k v =
          Except.ok ⟨(st.sequence + 1) % 2^64,
            env.add st.mem st.sequence kTypeMerge k v,
            st.ticks ++ [Tick.numberMergeFailures]⟩)) ∧
    (mergeTriggers env st k = false →
      mtiMerge env st k v =
        Except.ok ⟨(st.sequence + 1) % 2^64,
          env.add st.mem st.sequence kTypeMerge k v, st.ticks⟩) ∧
    (mergeTriggers env st k = true ↔
      0 < env.maxSuccessiveMerges ∧ env.dbPresent = true ∧
        env.maxSuccessiveMerges ≤
          env.countSuccessiveMergeEntries st.mem k st.sequence) := by
  refine ⟨fun ht => ⟨fun nv hnv => ?_, fun hnone => ?_⟩, fun hf => ?_, ?_⟩
  · simp [mtiMerge, ht, hmo, hnv]
  · simp [mtiMerge, ht, hmo, hnone]
  · simp [mtiMerge, hf, hmo]
  · simp [mergeTriggers, Bool.and_eq_true, decide_eq_true_eq, and_assoc]

/-- Witness for C8: the three branches evaluated at concrete
environments — eager success collapses to a `Value` record holding the
concatenation, merge failure ticks the metric and defers, threshold zero
defers unchanged. -/
theorem C8_successive_merge_policy_witness :
    mtiMerge listEnvConcatMerge ⟨5, ([] : ListMem), []⟩ [107] [111] =
      Except.ok ⟨6, [⟨5, kTypeValue, [107], [120, 111]⟩], []⟩ ∧
    mtiMerge listEnvFailMerge ⟨5, ([] : ListMem), []⟩ [107] [111] =
      Except.ok ⟨6, [⟨5, kTypeMerge, [107], [111]⟩],
        [Tick.numberMergeFailures]⟩ ∧
    mtiMerge listEnvConcatMergeDeferred ⟨5, ([] : ListMem), []⟩ [107] [111] =
      Except.ok ⟨6, [⟨5, kTypeMerge, [107], [111]⟩], []⟩ := by
  refine ⟨?_, ?_, ?_⟩
  · have h1 := ((C8_successive_merge_policy listEnvConcatMerge ⟨5, [], []⟩
      [107] [111] _ rfl).1 (by decide)).1 [120, 111] (by decide)
    simpa [listEnvConcatMerge, listEnvThreshold, listEnv] using h1
  · have h2 := ((C8_successive_merge_policy listEnvFailMerge ⟨5, [], []⟩
      [107] [111] _ rfl).1 (by decide)).2 (by decide)
    simpa [listEnvFailMerge, listEnvConcatMerge, listEnvThreshold, listEnv] using h2
  · have h3 := (C8_successive_merge_policy listEnvConcatMergeDeferred ⟨5, [], []⟩
      [107] [111] _ rfl).2.1 (by decide)
    simpa [listEnvConcatMergeDeferred, listEnvConcatMerge, listEnvThreshold,
      listEnv] using h3



/-- C10: a handler that does not override the default capability
implementations behaves as the base class prescribes during dispatch:
`LogData` is a no-op, `Continue` always returns true, and `Merge` throws —
so replaying a batch that contains a `Merge` record through such a handler
aborts the dispatch with the uncaught exception instead of silently
skipping the record. -/
theorem C10_default_handler_capabilities {σ : Type}
    (pf : σ → List Nat → List Nat → σ) (df : σ → List Nat → σ) (s : σ)
    (blob k v : List Nat) (pre post : List Op)
    (hpre : ∀ op ∈ pre, opIsMerge op = false ∧ opSmall op = true)
    (hk : k.length < 2^32) (hv : v.length < 2^32)
    (hN : nonLog (pre ++ Op.merge k v :: post) < 2^32) :
    (defaultHandler (fun s k v => Except.ok (pf s k v))
        (fun s k => Except.ok (df s k))).logData s blob = Except.ok s ∧
    (defaultHandler (fun s k v => Except.ok (pf s k v))
        (fun s k => Except.ok (df s k))).contF s = true ∧
    (defaultHandler (fun s k v => Except.ok (pf s k v))
        (fun s k => Except.ok (df s k))).merge s k v =
      Except.error "Handler::Merge not implemented!" ∧
    (iterate (buildBatch (pre ++ Op.merge k v :: post))
        (defaultHandler (fun s k v => Except.ok (pf s k v))
          (fun s k => Except.ok (df s k))) s).result =
      Except.error "Handler::Merge not implemented!" := by
  refine ⟨rfl, rfl, rfl, ?_⟩
  have hshape := buildBatch_shape _ hN
  have hdec : encOps (pre ++ Op.merge k v :: post) =
      encOps pre ++ (encOp (Op.merge k v) ++ encOps post) := by
    rw [encOps_append]
    simp [encOps]
  have hlen : ¬ (buildBatch (pre ++ Op.merge k v :: post)).length < kHeader := by
    rw [hshape]
    simp [kHeader]
    omega
  have hdrop : (buildBatch (pre ++ Op.merge k v :: post)).drop kHeader =
      encOps pre ++ (encOp (Op.merge k v) ++ encOps post) := by
    rw [hshape, ← List.append_assoc, List.drop_left' (by simp [kHeader]), hdec]
  unfold iterate
  rw [if_neg hlen]
  rw [hdrop]
  obtain ⟨f2, s2, fd2, hle2, heq2⟩ := iterLoop_defaultHandler_run pf df pre hpre
    (encOps pre ++ (encOp (Op.merge k v) ++ encOps post)).length
    (buildBatch (pre ++ Op.merge k v :: post))
    (encOp (Op.merge k v) ++ encOps post) s 0 []
    (by simp [List.length_append])
  rw [heq2]
  have htail : encOp (Op.merge k v) ++ encOps post =
      kTypeMerge :: (putLengthPrefixedSlice k ++
        (putLengthPrefixedSlice v ++ encOps post)) := by
    simp [encOp, List.append_assoc]
  cases f2 with
  | zero =>
    exfalso
    rw [htail] at hle2
    simp at hle2
  | succ f3 =>
    rw [htail]
    simp only [iterLoop, defaultHandler_contF, defaultHandler_merge,
      kTypeMerge, kTypeValue, kTypeDeletion, kTypeLogData,
      getLengthPrefixedSlice_enc k hk, getLengthPrefixedSlice_enc v hv]
    rw [if_neg (by simp)]
    simp



/-- C2 counterexample: a batch holding one `Put` record dispatched to a
handler whose `Continue()` is always false stops replay immediately with
the record unconsumed, and `Iterate` nevertheless fails with the
count-mismatch corruption error — refuting the claim that the post-check
runs only when the loop ran to buffer exhaustion. -/
theorem C2_continue_stop_counterexample :
    (iterate (wbPut wbClear [97] [49]) stopHandler ()).result =
      Except.ok (Status.corruption "WriteBatch has wrong count") ∧
    (iterate (wbPut wbClear [97] [49]) stopHandler ()).trace = [] := by
  decide

/-- Witness for C2's amended claim at a two-record batch. -/
theorem C2_postcheck_unconditional_witness :
    (iterate (wbMerge (wbPut wbClear [97] [49]) [99] [43]) stopHandler ()).result =
      Except.ok (Status.corruption "WriteBatch has wrong count") ∧
    (iterate (wbMerge (wbPut wbClear [97] [49]) [99] [43]) stopHandler ()).trace = [] :=
  C2_postcheck_unconditional (wbMerge (wbPut wbClear [97] [49]) [99] [43])
    stopHandler () (by decide) (by decide) (by decide)

/-- Witness for C3 at the spec's worked example: `Put("a","1")`,
`Delete("b")`, `Merge("c","+1")`, `PutLogData("meta")`; the count is 3. -/
theorem C3_round_trip_witness :
    iterate (buildBatch exOps) recorder [] =
      ⟨exOps, Except.ok Status.ok, exOps, buildBatch exOps⟩ ∧
    wbCount (buildBatch exOps) = nonLog exOps :=
  C3_round_trip exOps (by decide) (by decide)

/-- Witness for C4 at the spec's worked example: counts 2 and 3 sum to
5, the body is `dst`'s body followed by `src`'s body, the sequence field
is unchanged. -/
theorem C4_append_witness :
    (wbCount dstEx = 2 ∧ wbCount srcEx = 3 ∧ wbCount (wbAppend dstEx srcEx) = 5) ∧
    (wbAppend dstEx srcEx =
      dstEx.take 8 ++ encFixed32 (wbCount dstEx + wbCount srcEx) ++
        (dstEx.drop 12 ++ srcEx.drop 12) ∧
    wbCount (wbAppend dstEx srcEx) = (wbCount dstEx + wbCount srcEx) % 2^32 ∧
    (wbCount dstEx + wbCount srcEx < 2^32 →
      wbCount (wbAppend dstEx srcEx) = wbCount dstEx + wbCount srcEx) ∧
    (wbAppend dstEx srcEx).take 8 = dstEx.take 8 ∧
    wbSequence (wbAppend dstEx srcEx) = wbSequence dstEx) :=
  ⟨by decide, C4_append dstEx srcEx (by decide) (by decide)⟩

/-- Witness for C6 at the spec's worked example batch. -/
theorem C6_deterministic_witness :
    (iterate (buildBatch exOps) recorder []).trace =
      (iterate (buildBatch exOps) recorder []).trace ∧
    (iterate (buildBatch exOps) recorder []).result =
      (iterate (buildBatch exOps) recorder []).result ∧
    (iterate (buildBatch exOps) recorder []).state =
      (iterate (buildBatch exOps) recorder []).state ∧
    (iterate (buildBatch exOps) recorder []).buf = buildBatch exOps :=
  C6_deterministic (buildBatch exOps) recorder [] [] rfl

/-- Witness for C5: each corruption case evaluated at a concrete input
(undersized buffer; unassigned tag 9; each record kind truncated right
after its tag; and the exactness conjunct at a batch ending in tag 9). -/
theorem C5_corruption_witness :
    iterate [0, 0, 0] unitHandler () =
      ⟨(), Except.ok (Status.corruption "malformed WriteBatch (too small)"),
        [], [0, 0, 0]⟩ ∧
    iterLoop unitHandler 1 [5] [9] () 0 [] =
      ⟨(), 0, [], [5], LoopOutcome.corrupt "unknown WriteBatch tag"⟩ ∧
    iterLoop unitHandler 1 [] [kTypeValue] () 0 [] =
      ⟨(), 0, [], [], LoopOutcome.corrupt "bad WriteBatch Put"⟩ ∧
    iterLoop unitHandler 1 [] [kTypeDeletion] () 0 [] =
      ⟨(), 0, [], [], LoopOutcome.corrupt "bad WriteBatch Delete"⟩ ∧
    iterLoop unitHandler 1 [] [kTypeMerge] () 0 [] =
      ⟨(), 0, [], [], LoopOutcome.corrupt "bad WriteBatch Merge"⟩ ∧
    iterLoop unitHandler 1 [] [kTypeLogData] () 0 [] =
      ⟨(), 0, [], [], LoopOutcome.corrupt "bad WriteBatch Blob"⟩ ∧
    ("unknown WriteBatch tag" = "malformed WriteBatch (too small)" ∨
     "unknown WriteBatch tag" = "bad WriteBatch Put" ∨
     "unknown WriteBatch tag" = "bad WriteBatch Delete" ∨
     "unknown WriteBatch tag" = "bad WriteBatch Merge" ∨
     "unknown WriteBatch tag" = "bad WriteBatch Blob" ∨
     "unknown WriteBatch tag" = "unknown WriteBatch tag" ∨
     "unknown WriteBatch tag" = "WriteBatch has wrong count") :=
  ⟨(C5_corruption unitHandler).1 [0, 0, 0] () (by decide),
   (C5_corruption unitHandler).2.1 0 [5] 9 [] () 0 [] rfl (by decide)
     (by decide) (by decide) (by decide),
   (C5_corruption unitHandler).2.2.1 0 [] [] () 0 [] rfl (Or.inl (by decide)),
   (C5_corruption unitHandler).2.2.2.1 0 [] [] () 0 [] rfl (by decide),
   (C5_corruption unitHandler).2.2.2.2.1 0 [] [] () 0 [] rfl (Or.inl (by decide)),
   (C5_corruption unitHandler).2.2.2.2.2.1 0 [] [] () 0 [] rfl (by decide),
   (C5_corruption unitHandler).2.2.2.2.2.2 (wbClear ++ [9]) ()
     "unknown WriteBatch tag" (by decide)⟩

/-- Witness for C10: a `Put`-then-`Merge`-then-`Delete` batch replayed
through a counting subclass of the default handler aborts on the `Merge`
record with the base class's exception. -/
theorem C10_default_handler_capabilities_witness :
    (defaultHandler (fun (s : Nat) k v => Except.ok (s + 1))
        (fun s k => Except.ok (s + 1))).logData 0 [109] = Except.ok 0 ∧
    (defaultHandler (fun (s : Nat) k v => Except.ok (s + 1))
        (fun s k => Except.ok (s + 1))).contF 0 = true ∧
    (defaultHandler (fun (s : Nat) k v => Except.ok (s + 1))
        (fun s k => Except.ok (s + 1))).merge 0 [99] [43] =
      Except.error "Handler::Merge not implemented!" ∧
    (iterate (buildBatch ([Op.put [97] [49]] ++ Op.merge [99] [43] :: [Op.del [98]]))
        (defaultHandler (fun (s : Nat) k v => Except.ok (s + 1))
          (fun s k => Except.ok (s + 1))) 0).result =
      Except.error "Handler::Merge not implemented!" :=
  C10_default_handler_capabilities (fun s _ _ => s + 1) (fun s _ => s + 1) 0
    [109] [99] [43] [Op.put [97] [49]] [Op.del [98]]
    (by decide) (by decide) (by decide) (by decide)


end WriteBatchSpec
